import Mathlib

/-!
Verification of the process discovery, enrichment, filtering and
lifecycle-management core of the `knows` CLI (`src/processManager.ts` and the
key-diffing step of the `watch` command in `src/commands/list.ts`).

The TypeScript is shallowly embedded: JavaScript strings are `List Char`,
JavaScript's regex and string primitives used by the source are modelled
explicitly (`trimJS`, `splitWS`, `splitLinesJS`, `parseIntJS`, the two
address regexes, the protocol word-boundary search), `undefined` command
fields are `Option String`, and the `Map` / `Set` objects are association
lists respecting insertion order.
-/

namespace Knows

/-! ### JavaScript string primitives -/

/-- JavaScript `\s` on the ASCII range (space, tab, newline, carriage return,
vertical tab, form feed). -/
def jsWhitespace (c : Char) : Bool :=
  c == ' ' || c == '\t' || c == '\n' || c == '\r' ||
    c == Char.ofNat 11 || c == Char.ofNat 12

/-- JavaScript `String.prototype.trim` restricted to the whitespace the tool
output can contain. -/
def trimJS (cs : List Char) : List Char :=
  ((cs.dropWhile jsWhitespace).reverse.dropWhile jsWhitespace).reverse

/-- State machine of `split(/\s+/)`: `some cur` means a token (reversed in
`cur`) is being read, `none` means the scan is inside a whitespace separator
run. -/
def splitWSGo : Option (List Char) → List Char → List (List Char)
  | none, [] => [[]]
  | some cur, [] => [cur.reverse]
  | none, c :: rest =>
    if jsWhitespace c then splitWSGo none rest else splitWSGo (some [c]) rest
  | some cur, c :: rest =>
    if jsWhitespace c then cur.reverse :: splitWSGo none rest
    else splitWSGo (some (c :: cur)) rest

/-- JavaScript `str.split(/\s+/)`. -/
def splitWS (cs : List Char) : List (List Char) :=
  splitWSGo (some []) cs

/-- Splitting accumulator for `split(/\r?\n/)`. -/
def splitLinesAux (cur : List Char) : List Char → List (List Char)
  | [] => [cur.reverse]
  | '\r' :: '\n' :: rest => cur.reverse :: splitLinesAux [] rest
  | '\n' :: rest => cur.reverse :: splitLinesAux [] rest
  | c :: rest => splitLinesAux (c :: cur) rest

/-- JavaScript `str.split(/\r?\n/)`: a lone carriage return is content, not a
separator. -/
def splitLinesJS (cs : List Char) : List (List Char) :=
  splitLinesAux [] cs

/-- Decimal value of a run of ASCII digits. -/
def digitsVal (ds : List Char) : Nat :=
  ds.foldl (fun a c => a * 10 + (c.toNat - 48)) 0

/-- JavaScript `Number.parseInt(tok, 10)` returning `none` for `NaN`:
leading whitespace is skipped, an optional sign is read, then the maximal
leading digit run; anything after it is ignored. -/
def parseIntJS (tok : List Char) : Option Int :=
  let t := tok.dropWhile jsWhitespace
  match t with
  | '-' :: rest =>
    let ds := rest.takeWhile Char.isDigit
    if ds.isEmpty then none else some (-(digitsVal ds : Int))
  | '+' :: rest =>
    let ds := rest.takeWhile Char.isDigit
    if ds.isEmpty then none else some ((digitsVal ds : Int))
  | _ =>
    let ds := t.takeWhile Char.isDigit
    if ds.isEmpty then none else some ((digitsVal ds : Int))

/-- `Number.parseInt(parts[i], 10)` where the token may be out of range:
`parseInt(undefined, 10)` is `NaN`. -/
def parseIntOpt : Option (List Char) → Option Int
  | none => none
  | some t => parseIntJS t

/-- The bracket strip applied to a matched address: when it both starts with
`[` and ends with `]`, `slice(1, -1)`. -/
def stripBrackets (cs : List Char) : List Char :=
  if cs.head? == some '[' && cs.getLast? == some ']' then (cs.drop 1).dropLast
  else cs

/-- Characters excluded by an unflagged JavaScript `.` in a regex. -/
def jsDotExcluded (c : Char) : Bool :=
  c == '\n' || c == '\r' || c == Char.ofNat 0x2028 || c == Char.ofNat 0x2029

/-- `parseAddress` from the source: match `^(.*):(\d+)$` against the token
(the greedy `.*` makes this a split at the last colon, with only digits after
it), strip enclosing brackets from the address, and read the port in decimal.
Returns `none` when the regex does not match. -/
def parseAddress (tok : List Char) : Option (List Char × Nat) :=
  let rev := tok.reverse
  let ds := rev.takeWhile Char.isDigit
  if ds.isEmpty then none
  else
    match rev.dropWhile Char.isDigit with
    | ':' :: addrRev =>
      let addr := addrRev.reverse
      if addr.any jsDotExcluded then none
      else some (stripBrackets addr, digitsVal ds.reverse)
    | _ => none

/-! ### The Unix address regex `([\w.*:[\]]+):(\d+)` searched in a line -/

/-- A character of the class `[\w.*:[\]]`. -/
def isHostChar (c : Char) : Bool :=
  c.isAlphanum || c == '_' || c == '.' || c == '*' || c == ':' ||
    c == '[' || c == ']'

/-- Position `k` of the run carries a colon immediately followed by a digit. -/
def colonDigitAt (run : List Char) (k : Nat) : Bool :=
  run[k]? == some ':' &&
    (match run[(k+1)]? with
     | some c => c.isDigit
     | none => false)

/-- The largest admissible split point of the host-character run: group one is
greedy, so backtracking stops at the last colon of the run that is followed by
a digit (and leaves a nonempty group one). -/
def lastSplitIdx (run : List Char) : Option Nat :=
  (List.range run.length).foldl
    (fun acc k => if decide (1 ≤ k) && colonDigitAt run k then some k else acc)
    none

/-- Attempt of `([\w.*:[\]]+):(\d+)` anchored at the head of `cs`: the maximal
host-character run is split at `lastSplitIdx`, and group two is the maximal
digit run after the colon. -/
def matchHostAt (cs : List Char) : Option (List Char × List Char) :=
  let run := cs.takeWhile isHostChar
  match lastSplitIdx run with
  | some k => some (run.take k, (run.drop (k+1)).takeWhile Char.isDigit)
  | none => none

/-- Leftmost search of `([\w.*:[\]]+):(\d+)` in a line, as
`line.match(/([\w.*:[\]]+):(\d+)/)`. -/
def searchAddr : List Char → Option (List Char × List Char)
  | [] => none
  | c :: rest =>
    match matchHostAt (c :: rest) with
    | some r => some r
    | none => searchAddr rest

/-! ### The protocol regex `\b(TCP|UDP)\b` with the `i` flag -/

/-- A JavaScript `\w` character. -/
def isWordChar (c : Char) : Bool :=
  c.isAlphanum || c == '_'

/-- Case-insensitive comparison of one character against a lowercase target. -/
def lcIs (c t : Char) : Bool :=
  c.toLower == t

/-- The character after the candidate match breaks `\b` when it is a word
character. -/
def wordAfter : List Char → Bool
  | [] => false
  | c :: _ => isWordChar c

/-- Does `TCP` (`some true`) or `UDP` (`some false`) match case-insensitively
at the head, with a word boundary after it? -/
def protoHere : List Char → Option Bool
  | a :: b :: c :: rest =>
    if lcIs a 't' && lcIs b 'c' && lcIs c 'p' && !(wordAfter rest) then
      some true
    else if lcIs a 'u' && lcIs b 'd' && lcIs c 'p' && !(wordAfter rest) then
      some false
    else none
  | _ => none

/-- Leftmost search of `\b(TCP|UDP)\b/i`; `prevWord` records whether the
previous character was a word character (no word boundary before a match
then), and the result is the matched text uppercased. -/
def protoScan : Bool → List Char → Option String
  | _, [] => none
  | prevWord, c :: rest =>
    match (if prevWord then none else protoHere (c :: rest)) with
    | some true => some "TCP"
    | some false => some "UDP"
    | none => protoScan (isWordChar c) rest

/-! ### The data model -/

/-- `PortProcess` from the source: one observed listening socket. `command`
is `none` where the TypeScript field is `undefined` or missing. -/
structure PortProcess where
  pid : Int
  port : Nat
  protocol : String
  address : String
  command : Option String
deriving DecidableEq, Repr

/-! ### Unix-style parsing (`getUnixProcesses`) -/

/-- One iteration of the Unix parsing loop, for a single line already split
from the output: skip blank lines, search the protocol defaulting to TCP,
take the command from the first token and the pid from the second (skipping
on `NaN`), search the address regex anywhere in the line (skipping when it
does not match), strip brackets, and build the record. -/
def parseUnixLine (line : List Char) : Option PortProcess :=
  let t := trimJS line
  if t.isEmpty then none
  else
    let protocol := (protoScan false line).getD "TCP"
    let parts := splitWS t
    let command := (parts[0]?).getD []
    match parseIntOpt parts[1]? with
    | none => none
    | some pid =>
      match searchAddr line with
      | none => none
      | some (addrRaw, ds) =>
        some { pid := pid, port := digitsVal ds, protocol := protocol,
               address := (stripBrackets addrRaw).asString,
               command := some command.asString }

/-- The source's accumulation loop: lines whose parse is `none` are skipped
(`continue`), the rest push their record. -/
def collectLines (parse : List Char → Option PortProcess)
    (lines : List (List Char)) : List PortProcess :=
  lines.foldl
    (fun acc line =>
      match parse line with
      | some r => acc ++ [r]
      | none => acc)
    []

/-- Body of `getUnixProcesses` after the output text is in hand:
`output.split(/\r?\n/).slice(1)` discards the header line, then each
remaining line is parsed. -/
def parseUnixOutput (out : List Char) : List PortProcess :=
  collectLines parseUnixLine ((splitLinesJS out).drop 1)

/-- Outcome of the `lsof` invocation: on rejection, `isError` models
`error instanceof Error` and `stdoutField` models the presence and value of
the `stdout` property on the rejection value (`none` when absent). -/
inductive ExecOutcome where
  | success (stdout : String)
  | failure (isError : Bool) (stdoutField : Option String)

/-- `getUnixProcesses` including its error handling: a rejection that is an
`Error` carrying a captured `stdout` has that output parsed; any other
rejection is rethrown (`Except.error`). -/
def getUnixProcesses (res : ExecOutcome) : Except Unit (List PortProcess) :=
  match res with
  | .success out => .ok (parseUnixOutput out.toList)
  | .failure isErr sf =>
    if isErr then
      match sf with
      | some s => .ok (parseUnixOutput s.toList)
      | none => .error ()
    else .error ()

/-! ### Windows-style parsing (`getWindowsProcesses`) -/

/-- JavaScript `toUpperCase` on the tokens at hand. -/
def toUpperL (cs : List Char) : List Char :=
  cs.map Char.toUpper

/-- Tail of a Windows line parse once protocol, local-address token and pid
token are selected: the pid must parse as an integer and the local address
must split as `address:port`. -/
def windowsFinish (protocol addrTok pidTok : List Char) : Option PortProcess :=
  match parseIntJS pidTok with
  | none => none
  | some pid =>
    match parseAddress addrTok with
    | none => none
    | some (addr, port) =>
      some { pid := pid, port := port, protocol := protocol.asString,
             address := addr.asString, command := none }

/-- The Windows parsing loop body after header filtering and splitting: TCP
lines need five tokens and a `LISTENING` state and take the pid from token 4;
UDP lines need four tokens and take the pid from token 3; every other first
token drops the line. -/
def parseWindowsParts (parts : List (List Char)) : Option PortProcess :=
  if parts.length < 4 then none
  else
    let protocol := toUpperL ((parts[0]?).getD [])
    if protocol == "TCP".toList then
      if parts.length < 5 then none
      else if !((parts[3]?).getD [] == "LISTENING".toList) then none
      else windowsFinish protocol ((parts[1]?).getD []) ((parts[4]?).getD [])
    else if protocol == "UDP".toList then
      windowsFinish protocol ((parts[1]?).getD []) ((parts[3]?).getD [])
    else none

/-- One iteration of the Windows parsing loop: trim, skip blank and header
or banner lines, split on whitespace and decode. -/
def parseWindowsLine (raw : List Char) : Option PortProcess :=
  let line := trimJS raw
  if line.isEmpty then none
  else if "Proto".toList.isPrefixOf line || "Active".toList.isPrefixOf line then
    none
  else parseWindowsParts (splitWS line)

/-- `getWindowsProcesses` after the `netstat -ano` output is in hand. -/
def getWindowsProcesses (out : List Char) : List PortProcess :=
  collectLines parseWindowsLine (splitLinesJS out)

/-! ### Identity enrichment (`enrichProcesses`)

The OS process table is abstracted as `lookup : Int → Option String`:
`lookup pid = some s` models `findProcess('pid', pid)` resolving with a
nonempty `matches` array whose first entry yields `detail.cmd ?? detail.name
?? ''` equal to `s`, and `none` models an empty `matches` array.  The
`pidDetails` `Map` is an insertion-ordered association list. -/

/-- JavaScript truthiness of an optional string field: `undefined` and the
empty string are falsy. -/
def jsTruthy : Option String → Bool
  | none => false
  | some s => !s.isEmpty

/-- `Map.prototype.set`: overwrite an existing key in place, append a fresh
one. -/
def mapSet (m : List (Int × String)) (k : Int) (v : String) :
    List (Int × String) :=
  if m.any (fun e => e.1 == k) then
    m.map (fun e => if e.1 == k then (k, v) else e)
  else m ++ [(k, v)]

/-- `Map.prototype.get`, `none` for a missing key. -/
def mapGet (m : List (Int × String)) (k : Int) : Option String :=
  (m.find? (fun e => e.1 == k)).map Prod.snd

/-- `[...new Set(xs)]`: deduplicate keeping first occurrences. -/
def dedupFirst (l : List Int) : List Int :=
  l.foldl (fun acc x => if x ∈ acc then acc else acc ++ [x]) []

/-- One per-pid enrichment task: the `try` block stores the resolved detail
when the lookup found a match, and the `finally` block then stores the empty
string for the pid unconditionally. -/
def enrichTask (lookup : Int → Option String) (m : List (Int × String))
    (pid : Int) : List (Int × String) :=
  let afterTry :=
    match lookup pid with
    | some detail => mapSet m pid detail
    | none => m
  mapSet afterTry pid ""

/-- The `pidDetails` map after all per-pid tasks have completed. -/
def pidDetailsOf (lookup : Int → Option String) (pids : List Int) :
    List (Int × String) :=
  pids.foldl (enrichTask lookup) []

/-- The final `base.map(...)` body: a record with a truthy `command` passes
through, otherwise the record is re-built with `command` set to the map entry
for its pid. -/
def enrichOne (pd : List (Int × String)) (item : PortProcess) : PortProcess :=
  if jsTruthy item.command then item
  else { item with command := mapGet pd item.pid }

/-- `enrichProcesses`: deduplicate the pids, run the lookup tasks, and map the
result over the base records. -/
def enrichProcesses (lookup : Int → Option String) (base : List PortProcess) :
    List PortProcess :=
  base.map (enrichOne (pidDetailsOf lookup (dedupFirst (base.map PortProcess.pid))))

/-! ### The repository read path -/

/-- The sort order of `listListeningProcesses`: the comparator returns
non-positive exactly when the port is smaller, or the ports tie and the pid
is no larger. -/
def procLE (a b : PortProcess) : Prop :=
  a.port < b.port ∨ (a.port = b.port ∧ a.pid ≤ b.pid)

instance : DecidableRel procLE := fun a b => by
  unfold procLE; exact inferInstance

instance : IsTotal PortProcess procLE :=
  ⟨by
    intro a b
    unfold procLE
    rcases Nat.lt_trichotomy a.port b.port with h | h | h
    · exact Or.inl (Or.inl h)
    · rcases Int.le_total a.pid b.pid with hp | hp
      · exact Or.inl (Or.inr ⟨h, hp⟩)
      · exact Or.inr (Or.inr ⟨h.symm, hp⟩)
    · exact Or.inr (Or.inl h)⟩

instance : IsTrans PortProcess procLE :=
  ⟨by
    intro a b c hab hbc
    unfold procLE at *
    rcases hab with h1 | ⟨e1, p1⟩
    · rcases hbc with h2 | ⟨e2, _⟩
      · exact Or.inl (h1.trans h2)
      · exact Or.inl (e2 ▸ h1)
    · rcases hbc with h2 | ⟨e2, p2⟩
      · exact Or.inl (e1 ▸ h2)
      · exact Or.inr ⟨e1.trans e2, p1.trans p2⟩⟩

/-- The `enriched.sort(...)` call: a stable sort under `procLE` (JavaScript
`Array.prototype.sort` is stable, and insertion sort is the stable sort). -/
def sortProcs (l : List PortProcess) : List PortProcess :=
  l.insertionSort procLE

/-- `listListeningProcesses` once a platform discovery result `base` is in
hand: enrich, then sort by `(port, pid)`. -/
def listListeningProcesses (lookup : Int → Option String)
    (base : List PortProcess) : List PortProcess :=
  sortProcs (enrichProcesses lookup base)

/-- `filterByPort`. -/
def filterByPort (lookup : Int → Option String) (base : List PortProcess)
    (port : Nat) : List PortProcess :=
  (listListeningProcesses lookup base).filter (fun item => item.port == port)

/-- `filterByPortRange`: an inverted range short-circuits to `[]` before any
discovery. -/
def filterByPortRange (lookup : Int → Option String) (base : List PortProcess)
    (minPort maxPort : Int) : List PortProcess :=
  if minPort > maxPort then []
  else
    (listListeningProcesses lookup base).filter
      (fun item =>
        decide (minPort ≤ (item.port : Int)) && decide ((item.port : Int) ≤ maxPort))

/-! ### Termination (`terminateProcess`, `killByPid`, `killByPort`)

The Unix platform branch is modelled: `oskill : Int → Option ErrnoErr`
abstracts `process.kill(pid, 'SIGTERM')`, returning the thrown
`NodeJS.ErrnoException` or `none` on a normal return. -/

/-- The fields of a `NodeJS.ErrnoException` the source looks at. -/
structure ErrnoErr where
  code : Option String
  message : String
deriving DecidableEq, Repr

/-- `terminateProcess` on the signal-capable platform: an `ESRCH` failure
(process already gone) is swallowed, every other failure is rethrown. -/
def terminateProcess (oskill : Int → Option ErrnoErr) (pid : Int) :
    Option ErrnoErr :=
  match oskill pid with
  | none => none
  | some err => if err.code == some "ESRCH" then none else some err

/-- `killByPid` simply awaits `terminateProcess`. -/
def killByPid (oskill : Int → Option ErrnoErr) (pid : Int) : Option ErrnoErr :=
  terminateProcess oskill pid

/-- The `success` / `failed` aggregate of `killByPort`. -/
structure KillOutcome where
  success : List PortProcess
  failed : List (PortProcess × ErrnoErr)
deriving DecidableEq, Repr

/-- One matched record's attempt inside `killByPort`: push onto `success` on
a normal return of `terminateProcess`, otherwise catch and push onto
`failed`. -/
def killStep (oskill : Int → Option ErrnoErr) (acc : KillOutcome)
    (p : PortProcess) : KillOutcome :=
  match terminateProcess oskill p.pid with
  | none => { acc with success := acc.success ++ [p] }
  | some e => { acc with failed := acc.failed ++ [(p, e)] }

/-- `killByPort`: re-resolve the listeners on the port and attempt each
matched record independently. -/
def killByPort (oskill : Int → Option ErrnoErr) (lookup : Int → Option String)
    (base : List PortProcess) (port : Nat) : KillOutcome :=
  (filterByPort lookup base port).foldl (killStep oskill) ⟨[], []⟩

/-! ### The watch loop's key diffing (`makeKey` / `renderOnce`) -/

/-- `makeKey` from the watch command. -/
def makeKey (p : PortProcess) : String :=
  p.protocol ++ ":" ++ toString p.port ++ ":" ++ toString p.pid

/-- `Set.prototype.add` on an insertion-ordered string set. -/
def setAdd (s : List String) (k : String) : List String :=
  if k ∈ s then s else s ++ [k]

/-- The per-record marking of one render: a record is new exactly when
`!seenKeys.has(key)`. -/
def renderMarks (seen : List String) (procs : List PortProcess) :
    List (PortProcess × Bool) :=
  procs.map (fun p => (p, !(seen.contains (makeKey p))))

/-- `currentKeys` accumulated over the render. -/
def renderKeys (procs : List PortProcess) : List String :=
  procs.foldl (fun cur p => setAdd cur (makeKey p)) []

/-- The observable effect of one `renderOnce` call on the key state: the
marked records of this render, and the replacement `seenKeys`
(`seenKeys.clear()` followed by inserting every current key). -/
def renderOnce (seen : List String) (procs : List PortProcess) :
    List (PortProcess × Bool) × List String :=
  (renderMarks seen procs, renderKeys procs)

/-! ### Helper lemmas -/

theorem collectLines_go (parse : List Char → Option PortProcess) :
    ∀ (lines : List (List Char)) (acc : List PortProcess),
      lines.foldl
          (fun acc line =>
            match parse line with
            | some r => acc ++ [r]
            | none => acc)
          acc
        = acc ++ lines.filterMap parse := by
  intro lines
  induction lines with
  | nil => intro acc; simp
  | cons line rest ih =>
    intro acc
    cases h : parse line with
    | none => simp [List.foldl_cons, h, ih]
    | some r => simp [List.foldl_cons, h, ih]

theorem collectLines_eq_filterMap (parse : List Char → Option PortProcess)
    (lines : List (List Char)) :
    collectLines parse lines = lines.filterMap parse := by
  unfold collectLines
  simpa using collectLines_go parse lines []

theorem enrichOne_pid (pd : List (Int × String)) (p : PortProcess) :
    (enrichOne pd p).pid = p.pid := by
  unfold enrichOne; split <;> rfl

theorem enrichOne_port (pd : List (Int × String)) (p : PortProcess) :
    (enrichOne pd p).port = p.port := by
  unfold enrichOne; split <;> rfl

theorem enrichOne_protocol (pd : List (Int × String)) (p : PortProcess) :
    (enrichOne pd p).protocol = p.protocol := by
  unfold enrichOne; split <;> rfl

theorem enrichOne_address (pd : List (Int × String)) (p : PortProcess) :
    (enrichOne pd p).address = p.address := by
  unfold enrichOne; split <;> rfl

theorem enrichOne_truthy (pd : List (Int × String)) (p : PortProcess)
    (h : jsTruthy p.command = true) : enrichOne pd p = p := by
  unfold enrichOne; simp [h]

/-! ### Claim theorems -/

/-- Claim C1 (code bug): the enricher's per-pid task stores the resolved
command inside its `try` block but then unconditionally overwrites the map
entry with the empty string in its `finally` block, so a record whose pid
resolves to the nonempty command `node` comes back with `command` equal to
the present-but-empty string, not with `node`, and a record whose pid does
not resolve also comes back with the empty string rather than with an absent
command. -/
theorem enrichProcesses_clobbers_resolved_command :
    enrichProcesses (fun p => if p == 4821 then some "node" else none)
        [⟨4821, 3000, "TCP", "*", none⟩]
      = [⟨4821, 3000, "TCP", "*", some ""⟩]
    ∧ enrichProcesses (fun _ => none) [⟨4821, 3000, "TCP", "*", none⟩]
      = [⟨4821, 3000, "TCP", "*", some ""⟩] :=
  ⟨rfl, rfl⟩

/-- Claim C2: a listing-tool rejection that is an `Error` carrying a captured
standard output has that output parsed and the call succeeds with the decoded
records; the call propagates a fatal error exactly when the rejection carries
no capturable output (no `stdout` property, or the thrown value is not an
`Error` at all). -/
theorem getUnixProcesses_error_recovery (s : String) (sf : Option String) :
    getUnixProcesses (.success s) = .ok (parseUnixOutput s.toList)
    ∧ getUnixProcesses (.failure true (some s)) = .ok (parseUnixOutput s.toList)
    ∧ getUnixProcesses (.failure true none) = .error ()
    ∧ getUnixProcesses (.failure false sf) = .error () :=
  ⟨rfl, rfl, rfl, rfl⟩

/-- Claim C4: on the signal-capable platform, terminating an already-gone
process (the OS call fails with code `ESRCH`) returns normally, and
`terminateProcess` (hence `killByPid`, which merely awaits it) fails only
when the OS call reports a failure whose code is not `ESRCH`. -/
theorem terminateProcess_esrch_is_success (oskill : Int → Option ErrnoErr)
    (pid : Int) :
    (∀ e, oskill pid = some e → e.code = some "ESRCH" →
        terminateProcess oskill pid = none)
    ∧ (∀ e, terminateProcess oskill pid = some e →
        oskill pid = some e ∧ ¬e.code = some "ESRCH")
    ∧ killByPid oskill pid = terminateProcess oskill pid := by
  refine ⟨?_, ?_, rfl⟩
  · intro e he hcode
    unfold terminateProcess
    simp [he, hcode]
  · intro e he
    cases h : oskill pid with
    | none =>
      have hred : terminateProcess oskill pid = none := by
        unfold terminateProcess; rw [h]
      rw [hred] at he
      exact Option.noConfusion he
    | some err =>
      have hred : terminateProcess oskill pid
          = if err.code == some "ESRCH" then none else some err := by
        unfold terminateProcess; rw [h]
      rw [hred] at he
      by_cases hc : err.code = some "ESRCH"
      · rw [if_pos (by simp [hc])] at he
        exact Option.noConfusion he
      · rw [if_neg (by simp [hc])] at he
        cases he
        exact ⟨rfl, hc⟩

/-- Witness for C4 at a concrete OS table where the process is gone. -/
theorem terminateProcess_esrch_is_success_witness :
    terminateProcess (fun _ => some ⟨some "ESRCH", "kill ESRCH"⟩) 42 = none :=
  (terminateProcess_esrch_is_success
      (fun _ => some ⟨some "ESRCH", "kill ESRCH"⟩) 42).1
    ⟨some "ESRCH", "kill ESRCH"⟩ rfl rfl

/-- Claim C8: an inverted range returns the empty sequence before any
discovery, and a well-formed range returns exactly the repository view
filtered to the inclusive port interval. -/
theorem filterByPortRange_contract (lookup : Int → Option String)
    (base : List PortProcess) (minPort maxPort : Int) :
    (minPort > maxPort → filterByPortRange lookup base minPort maxPort = [])
    ∧ (minPort ≤ maxPort →
        filterByPortRange lookup base minPort maxPort
          = (listListeningProcesses lookup base).filter
              (fun item =>
                decide (minPort ≤ (item.port : Int)) &&
                  decide ((item.port : Int) ≤ maxPort))) := by
  constructor
  · intro h
    unfold filterByPortRange
    simp [h]
  · intro h
    unfold filterByPortRange
    simp [not_lt.mpr h]

/-- Witness for C8: a concrete inverted range yields the empty sequence. -/
theorem filterByPortRange_contract_witness :
    filterByPortRange (fun _ => none) [] 5 3 = [] :=
  (filterByPortRange_contract (fun _ => none) [] 5 3).1 (by decide)

theorem killByPort_go (oskill : Int → Option ErrnoErr) :
    ∀ (ms : List PortProcess) (acc : KillOutcome),
      ms.foldl (killStep oskill) acc
        = ⟨acc.success
              ++ ms.filter (fun q => (terminateProcess oskill q.pid).isNone),
           acc.failed
              ++ ms.filterMap
                  (fun q => (terminateProcess oskill q.pid).map (fun e => (q, e)))⟩ := by
  intro ms
  induction ms with
  | nil => intro acc; cases acc; simp
  | cons p rest ih =>
    intro acc
    rw [List.foldl_cons, ih]
    cases hterm : terminateProcess oskill p.pid with
    | none =>
      simp [killStep, hterm, List.filter_cons, List.filterMap_cons,
        List.append_assoc]
    | some e =>
      simp [killStep, hterm, List.filter_cons, List.filterMap_cons,
        List.append_assoc]

theorem failedProcs_eq (oskill : Int → Option ErrnoErr)
    (ms : List PortProcess) :
    (ms.filterMap
        (fun q => (terminateProcess oskill q.pid).map (fun e => (q, e)))).map
        Prod.fst
      = ms.filter (fun q => (terminateProcess oskill q.pid).isSome) := by
  induction ms with
  | nil => simp
  | cons p rest ih =>
    cases hterm : terminateProcess oskill p.pid with
    | none => simp [List.filterMap_cons, hterm, List.filter_cons, ih]
    | some e => simp [List.filterMap_cons, hterm, List.filter_cons, ih]

theorem count_term_partition (oskill : Int → Option ErrnoErr)
    (l : List PortProcess) (p : PortProcess) :
    (l.filter (fun q => (terminateProcess oskill q.pid).isNone)).count p
      + (l.filter (fun q => (terminateProcess oskill q.pid).isSome)).count p
      = l.count p := by
  induction l with
  | nil => simp
  | cons a rest ih =>
    cases hterm : terminateProcess oskill a.pid with
    | none =>
      simp only [List.filter_cons, hterm, Option.isNone_none, Option.isSome_none,
        List.count_cons, if_true, if_false, Bool.false_eq_true]
      omega
    | some e =>
      simp only [List.filter_cons, hterm, Option.isNone_some, Option.isSome_some,
        List.count_cons, if_true, if_false, Bool.false_eq_true]
      omega

/-- Claim C3: every record matched by the initial `filterByPort` call lands
in exactly one of the outcome's `success` or `failed` collections — counted
with multiplicity nothing is dropped or duplicated, and no record appears on
both sides — for every possible pattern of per-record termination failures. -/
theorem killByPort_partitions (oskill : Int → Option ErrnoErr)
    (lookup : Int → Option String) (base : List PortProcess) (port : Nat)
    (p : PortProcess) :
    (killByPort oskill lookup base port).success.count p
        + ((killByPort oskill lookup base port).failed.map Prod.fst).count p
      = (filterByPort lookup base port).count p
    ∧ ¬(p ∈ (killByPort oskill lookup base port).success
        ∧ p ∈ (killByPort oskill lookup base port).failed.map Prod.fst) := by
  unfold killByPort
  rw [killByPort_go oskill (filterByPort lookup base port) ⟨[], []⟩]
  constructor
  · simp only [List.nil_append, failedProcs_eq]
    exact count_term_partition oskill (filterByPort lookup base port) p
  · simp only [List.nil_append, failedProcs_eq]
    rintro ⟨hs, hf⟩
    have h1 := (List.mem_filter.mp hs).2
    have h2 := (List.mem_filter.mp hf).2
    cases hterm : terminateProcess oskill p.pid with
    | none => rw [hterm] at h2; exact Bool.noConfusion h2
    | some e => rw [hterm] at h1; exact Bool.noConfusion h1

/-- Witness for C3 at a concrete snapshot and a concrete record. -/
theorem killByPort_partitions_witness :
    (killByPort (fun _ => none) (fun _ => none)
            [⟨1, 80, "TCP", "*", none⟩] 80).success.count ⟨1, 80, "TCP", "*", some ""⟩
        + ((killByPort (fun _ => none) (fun _ => none)
            [⟨1, 80, "TCP", "*", none⟩] 80).failed.map Prod.fst).count
            ⟨1, 80, "TCP", "*", some ""⟩
      = (filterByPort (fun _ => none) [⟨1, 80, "TCP", "*", none⟩] 80).count
          ⟨1, 80, "TCP", "*", some ""⟩
    ∧ ¬(⟨1, 80, "TCP", "*", some ""⟩
          ∈ (killByPort (fun _ => none) (fun _ => none)
              [⟨1, 80, "TCP", "*", none⟩] 80).success
        ∧ ⟨1, 80, "TCP", "*", some ""⟩
          ∈ (killByPort (fun _ => none) (fun _ => none)
              [⟨1, 80, "TCP", "*", none⟩] 80).failed.map Prod.fst) :=
  killByPort_partitions (fun _ => none) (fun _ => none)
    [⟨1, 80, "TCP", "*", none⟩] 80 ⟨1, 80, "TCP", "*", some ""⟩

/-- Claim C7: the sequences returned by the repository read path
(`listListeningProcesses`, `filterByPort`, `filterByPortRange`) are sorted
ascending by `(port, pid)`, whatever order discovery and enrichment produced
the records in. -/
theorem repository_sorted (lookup : Int → Option String)
    (base : List PortProcess) (port : Nat) (minPort maxPort : Int) :
    List.Sorted procLE (listListeningProcesses lookup base)
    ∧ List.Sorted procLE (filterByPort lookup base port)
    ∧ List.Sorted procLE (filterByPortRange lookup base minPort maxPort) := by
  have h1 : List.Sorted procLE (listListeningProcesses lookup base) := by
    unfold listListeningProcesses sortProcs
    exact List.sorted_insertionSort procLE _
  refine ⟨h1, ?_, ?_⟩
  · unfold filterByPort
    exact List.Pairwise.sublist (List.filter_sublist _) h1
  · unfold filterByPortRange
    split
    · exact List.sorted_nil
    · exact List.Pairwise.sublist (List.filter_sublist _) h1

/-- Witness for C7 at a concrete unsorted discovery snapshot. -/
theorem repository_sorted_witness :
    List.Sorted procLE
        (listListeningProcesses (fun _ => none)
          [⟨9, 90, "TCP", "*", none⟩, ⟨1, 10, "TCP", "*", none⟩])
    ∧ List.Sorted procLE
        (filterByPort (fun _ => none)
          [⟨9, 90, "TCP", "*", none⟩, ⟨1, 10, "TCP", "*", none⟩] 10)
    ∧ List.Sorted procLE
        (filterByPortRange (fun _ => none)
          [⟨9, 90, "TCP", "*", none⟩, ⟨1, 10, "TCP", "*", none⟩] 1 100) :=
  repository_sorted (fun _ => none)
    [⟨9, 90, "TCP", "*", none⟩, ⟨1, 10, "TCP", "*", none⟩] 10 1 100

theorem setAdd_mem (s : List String) (k0 k : String) :
    k ∈ setAdd s k0 ↔ k ∈ s ∨ k = k0 := by
  unfold setAdd
  split
  · constructor
    · exact fun h => Or.inl h
    · rintro (h | rfl)
      · exact h
      · assumption
  · simp [List.mem_append]

theorem renderKeys_go :
    ∀ (procs : List PortProcess) (acc : List String) (k : String),
      k ∈ procs.foldl (fun cur p => setAdd cur (makeKey p)) acc
        ↔ k ∈ acc ∨ k ∈ procs.map makeKey := by
  intro procs
  induction procs with
  | nil => intro acc k; simp
  | cons p rest ih =>
    intro acc k
    rw [List.foldl_cons, ih, setAdd_mem]
    simp only [List.map_cons, List.mem_cons]
    tauto

/-- Claim C9: in one render, a record is marked new exactly when its
`protocol:port:processId` key is absent from the previous render's remembered
key set, and the remembered set is then replaced by exactly this render's key
set; on the claim's example only the `TCP:4000:551` entry is marked new. -/
theorem renderOnce_diff (seen : List String) (procs : List PortProcess) :
    (renderOnce seen procs).1
        = procs.map (fun p => (p, decide (makeKey p ∉ seen)))
    ∧ (∀ k, k ∈ (renderOnce seen procs).2 ↔ k ∈ procs.map makeKey)
    ∧ renderOnce ["TCP:3000:4821"]
          [⟨4821, 3000, "TCP", "*", none⟩, ⟨551, 4000, "TCP", "*", none⟩]
        = ([(⟨4821, 3000, "TCP", "*", none⟩, false),
            (⟨551, 4000, "TCP", "*", none⟩, true)],
           ["TCP:3000:4821", "TCP:4000:551"]) := by
  refine ⟨?_, ?_, by decide⟩
  · unfold renderOnce renderMarks
    exact List.map_congr_left (fun p _ => by simp)
  · intro k
    unfold renderOnce renderKeys
    rw [renderKeys_go]
    simp

/-- Witness for C9 at the claim's example state. -/
theorem renderOnce_diff_witness :
    ("TCP:4000:551" ∈ (renderOnce ["TCP:3000:4821"]
          [⟨4821, 3000, "TCP", "*", none⟩, ⟨551, 4000, "TCP", "*", none⟩]).2
      ↔ "TCP:4000:551"
          ∈ [(⟨4821, 3000, "TCP", "*", none⟩ : PortProcess),
             ⟨551, 4000, "TCP", "*", none⟩].map makeKey) :=
  (renderOnce_diff ["TCP:3000:4821"]
      [⟨4821, 3000, "TCP", "*", none⟩, ⟨551, 4000, "TCP", "*", none⟩]).2.1
    "TCP:4000:551"

/-- Claim C10: enrichment preserves length and order, preserves every field
but `command` of every record, and returns any record that already carried a
nonempty command entirely unchanged. -/
theorem enrichProcesses_frame (lookup : Int → Option String)
    (base : List PortProcess) :
    (enrichProcesses lookup base).length = base.length
    ∧ (∀ i : Nat,
        ((enrichProcesses lookup base)[i]?).map PortProcess.pid
            = (base[i]?).map PortProcess.pid
        ∧ ((enrichProcesses lookup base)[i]?).map PortProcess.port
            = (base[i]?).map PortProcess.port
        ∧ ((enrichProcesses lookup base)[i]?).map PortProcess.protocol
            = (base[i]?).map PortProcess.protocol
        ∧ ((enrichProcesses lookup base)[i]?).map PortProcess.address
            = (base[i]?).map PortProcess.address)
    ∧ (∀ (i : Nat) (q : PortProcess), base[i]? = some q →
        jsTruthy q.command = true → (enrichProcesses lookup base)[i]? = some q) := by
  refine ⟨by simp [enrichProcesses], ?_, ?_⟩
  · intro i
    unfold enrichProcesses
    refine ⟨?_, ?_, ?_, ?_⟩ <;>
      (cases hq : base[i]? with
       | none => simp [hq]
       | some q =>
         simp [hq, enrichOne_pid, enrichOne_port, enrichOne_protocol,
           enrichOne_address])
  · intro i q hq ht
    unfold enrichProcesses
    simp [hq, enrichOne_truthy _ _ ht]

/-- Witness for C10: a record already carrying a nonempty command passes
through unchanged. -/
theorem enrichProcesses_frame_witness :
    (enrichProcesses (fun _ => none) [⟨7, 80, "TCP", "x", some "cmd"⟩])[0]?
      = some ⟨7, 80, "TCP", "x", some "cmd"⟩ :=
  (enrichProcesses_frame (fun _ => none) [⟨7, 80, "TCP", "x", some "cmd"⟩]).2.2
    0 ⟨7, 80, "TCP", "x", some "cmd"⟩ rfl rfl

theorem parseUnixLine_isSome_iff (line : List Char) :
    (parseUnixLine line).isSome
      ↔ (trimJS line ≠ []
         ∧ (parseIntOpt ((splitWS (trimJS line))[1]?)).isSome
         ∧ (searchAddr line).isSome) := by
  unfold parseUnixLine
  by_cases h0 : (trimJS line).isEmpty
  · simp [h0, List.isEmpty_iff.mp h0]
  · have h0' : trimJS line ≠ [] := by
      simpa [List.isEmpty_iff] using h0
    simp only [h0, Bool.false_eq_true, if_false]
    cases h1 : parseIntOpt ((splitWS (trimJS line))[1]?) with
    | none => simp [h1, h0']
    | some pid =>
      cases h2 : searchAddr line with
      | none => simp [h1, h2, h0']
      | some pr =>
        cases pr with
        | mk addr ds => simp [h1, h2, h0']

/-- Claim C6: a Unix listing line yields a record exactly when it is
non-blank, its second whitespace token parses as an integer pid and the
address regex matches somewhere in it; the output is the per-line parse of
every line after the discarded header, so a garbled line contributes nothing
and never aborts the parse; and the claim's example line decodes to the
claimed record. -/
theorem getUnixProcesses_line_parse :
    (∀ line : List Char,
        (parseUnixLine line).isSome
          ↔ (trimJS line ≠ []
             ∧ (parseIntOpt ((splitWS (trimJS line))[1]?)).isSome
             ∧ (searchAddr line).isSome))
    ∧ (∀ out : List Char,
        parseUnixOutput out = ((splitLinesJS out).drop 1).filterMap parseUnixLine)
    ∧ parseUnixLine "node 4821 ... TCP *:3000 (LISTEN)".toList
        = some ⟨4821, 3000, "TCP", "*", some "node"⟩ := by
  refine ⟨parseUnixLine_isSome_iff, ?_, rfl⟩
  intro out
  unfold parseUnixOutput
  exact collectLines_eq_filterMap _ _

theorem windowsFinish_isSome (proto addrTok pidTok : List Char) :
    (windowsFinish proto addrTok pidTok).isSome
      ↔ ((parseIntJS pidTok).isSome ∧ (parseAddress addrTok).isSome) := by
  unfold windowsFinish
  cases h1 : parseIntJS pidTok with
  | none => simp [h1]
  | some pid =>
    cases h2 : parseAddress addrTok with
    | none => simp [h1, h2]
    | some pr =>
      cases pr with
      | mk a b => simp [h1, h2]

/-- Claim C5: a Windows listing line whose first token uppercases to TCP and
is otherwise well formed is included exactly when its state column equals
LISTENING; a well-formed UDP line (no state column) is always included; a
line whose first token uppercases to neither is dropped; and the claim's
example lines behave as claimed. -/
theorem getWindowsProcesses_selection :
    (∀ (t a o st pidTok : List Char) (rest : List (List Char)),
        toUpperL t = "TCP".toList →
        (parseIntJS pidTok).isSome →
        (parseAddress a).isSome →
        ((parseWindowsParts (t :: a :: o :: st :: pidTok :: rest)).isSome
          ↔ st = "LISTENING".toList))
    ∧ (∀ (t a o pidTok : List Char) (rest : List (List Char)),
        toUpperL t = "UDP".toList →
        (parseIntJS pidTok).isSome →
        (parseAddress a).isSome →
        (parseWindowsParts (t :: a :: o :: pidTok :: rest)).isSome)
    ∧ (∀ (parts : List (List Char)) (t0 : List Char),
        parts[0]? = some t0 →
        ¬toUpperL t0 = "TCP".toList →
        ¬toUpperL t0 = "UDP".toList →
        parseWindowsParts parts = none)
    ∧ parseWindowsLine "TCP 0.0.0.0:8080 0.0.0.0:0 LISTENING 9912".toList
        = some ⟨9912, 8080, "TCP", "0.0.0.0", none⟩
    ∧ parseWindowsLine "TCP 0.0.0.0:8080 0.0.0.0:0 ESTABLISHED 9912".toList
        = none := by
  refine ⟨?_, ?_, ?_, rfl, rfl⟩
  · intro t a o st pidTok rest ht hpid haddr
    unfold parseWindowsParts
    simp only [List.length_cons, List.getElem?_cons_zero, List.getElem?_cons_succ,
      Option.getD_some, ht]
    rw [if_neg (by omega)]
    rw [if_pos (by rfl)]
    rw [if_neg (by omega)]
    by_cases hst : st = "LISTENING".toList
    · subst hst
      rw [if_neg (by decide)]
      simp [windowsFinish_isSome, hpid, haddr]
    · rw [if_pos (by simpa using hst)]
      simpa using hst
  · intro t a o pidTok rest ht hpid haddr
    unfold parseWindowsParts
    simp only [List.length_cons, List.getElem?_cons_zero, List.getElem?_cons_succ,
      Option.getD_some, ht]
    rw [if_neg (by omega)]
    rw [if_neg (by decide)]
    rw [if_pos (by rfl)]
    simp [windowsFinish_isSome, hpid, haddr]
  · intro parts t0 h0 htcp hudp
    unfold parseWindowsParts
    by_cases hlen : parts.length < 4
    · rw [if_pos hlen]
    · rw [if_neg hlen]
      simp only [h0, Option.getD_some]
      have htcp2 : (toUpperL t0 == "TCP".toList) ≠ true := by
        intro hcon
        exact htcp (by simpa using hcon)
      have hudp2 : (toUpperL t0 == "UDP".toList) ≠ true := by
        intro hcon
        exact hudp (by simpa using hcon)
      rw [if_neg htcp2]
      rw [if_neg hudp2]

/-- Witness for C5: the TCP inclusion criterion applied at the example's
tokens. -/
theorem getWindowsProcesses_selection_witness :
    ((parseWindowsParts
          ["TCP".toList, "0.0.0.0:8080".toList, "0.0.0.0:0".toList,
           "LISTENING".toList, "9912".toList]).isSome
      ↔ "LISTENING".toList = "LISTENING".toList) :=
  getWindowsProcesses_selection.1 "TCP".toList "0.0.0.0:8080".toList
    "0.0.0.0:0".toList "LISTENING".toList "9912".toList [] (by decide)
    (by decide) (by decide)

end Knows
